import Mathlib

/-!
Verification of the configuration-language lexer and parser (src/main.py).

The lexer (`tokenize`) and recursive-descent parser (`parse` and friends) are
shallowly embedded below.  Python machine-level behaviours that the code can
trigger are modelled explicitly:

* `Err.noneSubscript` models the TypeError raised by subscripting the result
  of `peek()` / `next_token()` when the token list is exhausted;
* `Err.indexErr` models the IndexError raised by `result[0]` on an empty list;
* `Err.outOfFuel` models exhaustion of the host call stack (the parser here
  is written with an explicit fuel parameter, one unit per call);
* Python lists are mutable heap objects aliased by reference, so `Val.ref`
  points into an explicit heap of list objects and the in-place operators
  `+=` / `*=` mutate that heap;
* a Python float produced by `/` is modelled as the exact rational quotient.
-/

namespace ConfigLang

abbrev Chars := List Char

/-- Token kinds, exactly the closed set of `Lexer.TOKENS` in src/main.py. -/
inductive TokKind where
  | VAR | EVAL | MULTIPLY | DICT_START | DICT_END | DIVIDE
  | ARRAY_START | ARRAY_END | COMMA | EQUALS | BOOLEAN | NUMBER
  | STRING | IDENTIFIER | SEMICOLON | PLUS | MINUS
deriving DecidableEq, Repr

/-- A token: `(token_type, matched substring, byte offset)`. -/
structure Token where
  kind : TokKind
  lexeme : String
  offset : Nat
deriving DecidableEq, Repr

/-- Failure modes of the lexer/parser.  Constructors carry exactly the data
the corresponding Python exception message carries.  In particular the
lexical error of `Lexer.tokenize` carries only the offending character. -/
inductive Err where
  | lexErr (c : Char)
  | synExpect (expected : TokKind) (found : Option Token)
  | synUnexpectedToken (t : Token)
  | synExpectedIdentAfterVar
  | synUnexpectedValue (t : Token)
  | synExpectedIdentKey
  | synExpectedIdentAfterEval
  | undefinedVar (name : String)
  | zeroDiv
  | typeErr
  | noneSubscript
  | indexErr
  | outOfFuel
deriving DecidableEq, Repr

/-- The Python exception class under which each failure is raised. -/
inductive ExcClass where
  | syntaxError | valueError | zeroDivisionError | typeError | indexError | recursionError
deriving DecidableEq, Repr

/-- Classify each modelled failure by its Python exception class:
the lexer and parser raise SyntaxError, an undefined variable raises
ValueError, division by zero raises ZeroDivisionError, and the host raises
TypeError / IndexError / RecursionError for the machine-level failures. -/
def pyExcClass : Err → ExcClass
  | .lexErr _ => .syntaxError
  | .synExpect _ _ => .syntaxError
  | .synUnexpectedToken _ => .syntaxError
  | .synExpectedIdentAfterVar => .syntaxError
  | .synUnexpectedValue _ => .syntaxError
  | .synExpectedIdentKey => .syntaxError
  | .synExpectedIdentAfterEval => .syntaxError
  | .undefinedVar _ => .valueError
  | .zeroDiv => .zeroDivisionError
  | .typeErr => .typeError
  | .noneSubscript => .typeError
  | .indexErr => .indexError
  | .outOfFuel => .recursionError

/-! ### Lexical rules

Each rule of `Lexer.TOKENS` is a matcher returning the substring the Python
regex would match at the cursor (always a prefix of the remaining text). -/

/-- Python regex class matched by a \s pattern character, restricted to ASCII. -/
def isPySpace (c : Char) : Bool :=
  decide (c.toNat = 32 ∨ c.toNat = 9 ∨ c.toNat = 10 ∨ c.toNat = 13 ∨ c.toNat = 11 ∨ c.toNat = 12)

/-- The character class of a [0-9] pattern. -/
def isDigitChar (c : Char) : Bool :=
  decide (48 ≤ c.toNat ∧ c.toNat ≤ 57)

/-- Leading character class of the identifier pattern, `[_A-Za-z]`. -/
def isIdentStart (c : Char) : Bool :=
  decide (c.toNat = 95 ∨ (65 ≤ c.toNat ∧ c.toNat ≤ 90) ∨ (97 ≤ c.toNat ∧ c.toNat ≤ 122))

/-- Continuation character class of the identifier pattern, `[_a-zA-Z0-9]`. -/
def isIdentChar (c : Char) : Bool :=
  isIdentStart c || isDigitChar c

/-- Rule `\s+`: a maximal nonempty run of whitespace. -/
def matchWs (s : Chars) : Option Chars :=
  match s.takeWhile isPySpace with
  | [] => none
  | c :: cs => some (c :: cs)

/-- A literal pattern such as the keyword `var` or a punctuation mark. -/
def matchLit (lit : Chars) (s : Chars) : Option Chars :=
  if lit.isPrefixOf s then some lit else none

/-- Rule `true|false`: the alternation tries `true` first, then `false`. -/
def matchBool (s : Chars) : Option Chars :=
  match matchLit ['t', 'r', 'u', 'e'] s with
  | some m => some m
  | none => matchLit ['f', 'a', 'l', 's', 'e'] s

/-- Rule `[0-9]+`: a maximal nonempty run of digits. -/
def matchNumber (s : Chars) : Option Chars :=
  match s.takeWhile isDigitChar with
  | [] => none
  | c :: cs => some (c :: cs)

/-- Rule for string literals: a double quote, a run of non-quote characters,
and a closing double quote. -/
def matchStr (s : Chars) : Option Chars :=
  match s with
  | '"' :: rest =>
    match rest.dropWhile (fun c => !(c == '"')) with
    | '"' :: _ => some ('"' :: (rest.takeWhile (fun c => !(c == '"')) ++ ['"']))
    | _ => none
  | _ => none

/-- Rule `[_A-Za-z][_a-zA-Z0-9]*`. -/
def matchIdent (s : Chars) : Option Chars :=
  match s with
  | c :: rest => if isIdentStart c then some (c :: rest.takeWhile isIdentChar) else none
  | [] => none

/-- The ordered rule table of `Lexer.TOKENS`, first match wins.  The order is
exactly the source order; a rule with kind `none` is whitespace to skip. -/
def TOKENS : List ((Chars → Option Chars) × Option TokKind) :=
  [ (matchWs, none),
    (matchLit ['v', 'a', 'r'], some .VAR),
    (matchLit ['^'], some .EVAL),
    (matchLit ['*'], some .MULTIPLY),
    (matchLit ['@', '\x7b'], some .DICT_START),
    (matchLit ['\x7d'], some .DICT_END),
    (matchLit ['/'], some .DIVIDE),
    (matchLit ['('], some .ARRAY_START),
    (matchLit [')'], some .ARRAY_END),
    (matchLit [','], some .COMMA),
    (matchLit ['='], some .EQUALS),
    (matchBool, some .BOOLEAN),
    (matchNumber, some .NUMBER),
    (matchStr, some .STRING),
    (matchIdent, some .IDENTIFIER),
    (matchLit [';'], some .SEMICOLON),
    (matchLit ['+'], some .PLUS),
    (matchLit ['-'], some .MINUS) ]

/-- Try the rules of `TOKENS` in order at the cursor; return the first match
together with its (optional) token kind. -/
def firstMatch (s : Chars) : Option (Chars × Option TokKind) :=
  TOKENS.findSome? fun r => (r.1 s).map fun m => (m, r.2)

/-- A lexical rule is sound when it only ever matches a nonempty prefix. -/
def RuleOk (f : Chars → Option Chars) : Prop :=
  ∀ s m, f s = some m → m ≠ [] ∧ m <+: s

theorem matchWs_ok : RuleOk matchWs := by
  intro s m h
  unfold matchWs at h
  rcases hw : s.takeWhile isPySpace with _ | ⟨c, cs⟩ <;> rw [hw] at h
  · exact absurd h (by simp)
  · cases h
    exact ⟨by simp, hw ▸ List.takeWhile_prefix _⟩

theorem matchLit_ok (lit : Chars) (hne : lit ≠ []) : RuleOk (matchLit lit) := by
  intro s m h
  unfold matchLit at h
  by_cases hp : lit.isPrefixOf s
  · rw [if_pos hp] at h
    cases h
    exact ⟨hne, List.isPrefixOf_iff_prefix.mp hp⟩
  · rw [if_neg hp] at h
    exact absurd h (by simp)

theorem matchBool_ok : RuleOk matchBool := by
  intro s m h
  unfold matchBool at h
  rcases ht : matchLit ['t', 'r', 'u', 'e'] s with _ | m' <;> rw [ht] at h
  · exact matchLit_ok _ (by simp) s m h
  · cases h
    exact matchLit_ok _ (by simp) s m ht

theorem matchNumber_ok : RuleOk matchNumber := by
  intro s m h
  unfold matchNumber at h
  rcases hw : s.takeWhile isDigitChar with _ | ⟨c, cs⟩ <;> rw [hw] at h
  · exact absurd h (by simp)
  · cases h
    exact ⟨by simp, hw ▸ List.takeWhile_prefix _⟩

theorem matchStr_ok : RuleOk matchStr := by
  intro s m h
  unfold matchStr at h
  split at h
  · next rest =>
    split at h
    · next tail hd =>
      cases h
      refine ⟨by simp, ⟨tail, ?_⟩⟩
      have hsplit : rest.takeWhile (fun c => !(c == '"')) ++
          rest.dropWhile (fun c => !(c == '"')) = rest :=
        List.takeWhile_append_dropWhile _ _
      rw [hd] at hsplit
      simp only [List.cons_append, List.append_assoc, List.cons.injEq, true_and]
      simpa using hsplit
    · next => exact absurd h (by simp)
  · next => exact absurd h (by simp)

theorem matchIdent_ok : RuleOk matchIdent := by
  intro s m h
  unfold matchIdent at h
  match s with
  | [] => exact absurd h (by simp)
  | c :: rest =>
    by_cases hs : isIdentStart c
    · simp only [hs, if_pos] at h
      cases h
      exact ⟨by simp, by
        refine ⟨rest.dropWhile isIdentChar, ?_⟩
        simp [List.takeWhile_append_dropWhile]⟩
    · simp [hs] at h

theorem TOKENS_ok : ∀ r ∈ TOKENS, RuleOk r.1 := by
  intro r hr
  fin_cases hr
  · exact matchWs_ok
  · exact matchLit_ok _ (by simp)
  · exact matchLit_ok _ (by simp)
  · exact matchLit_ok _ (by simp)
  · exact matchLit_ok _ (by simp)
  · exact matchLit_ok _ (by simp)
  · exact matchLit_ok _ (by simp)
  · exact matchLit_ok _ (by simp)
  · exact matchLit_ok _ (by simp)
  · exact matchLit_ok _ (by simp)
  · exact matchLit_ok _ (by simp)
  · exact matchBool_ok
  · exact matchNumber_ok
  · exact matchStr_ok
  · exact matchIdent_ok
  · exact matchLit_ok _ (by simp)
  · exact matchLit_ok _ (by simp)
  · exact matchLit_ok _ (by simp)

theorem findSome_rules_spec :
    ∀ (rules : List ((Chars → Option Chars) × Option TokKind)),
      (∀ r ∈ rules, RuleOk r.1) →
      ∀ s m k, (rules.findSome? fun r => (r.1 s).map fun m => (m, r.2)) = some (m, k) →
        m ≠ [] ∧ m <+: s := by
  intro rules
  induction rules with
  | nil => intro _ s m k h; rw [List.findSome?_nil] at h; cases h
  | cons r rs ih =>
    intro hok s m k h
    rw [List.findSome?_cons] at h
    rcases hr : (r.1 s).map (fun m => (m, r.2)) with _ | p <;> rw [hr] at h
    · exact ih (fun r' hr' => hok r' (List.mem_cons_of_mem _ hr')) s m k h
    · cases h
      rcases hm : r.1 s with _ | m' <;> rw [hm] at hr
      · exact absurd hr (by simp)
      · simp only [Option.map_some'] at hr
        have heq : m' = m := congrArg Prod.fst (Option.some.inj hr)
        subst heq
        exact hok r (List.mem_cons_self _ _) s m' hm

theorem firstMatch_spec {s m : Chars} {k : Option TokKind}
    (h : firstMatch s = some (m, k)) : m ≠ [] ∧ m <+: s :=
  findSome_rules_spec TOKENS TOKENS_ok s m k h

/-! ### The lexer loop (`Lexer.tokenize`)

At each cursor position try the rules in order; if none matches, fail with a
lexical error carrying the offending character (this is all the Python
f-string reports); otherwise append a token when the rule has a kind and
advance the cursor by the length of the match. -/

def tokenize (pos : Nat) (s : Chars) : Except Err (List Token) :=
  match s with
  | [] => .ok []
  | c :: rest0 =>
    match hm : firstMatch (c :: rest0) with
    | none => .error (.lexErr c)
    | some (m, tt) =>
      match tokenize (pos + m.length) ((c :: rest0).drop m.length) with
      | .error e => .error e
      | .ok rest =>
        match tt with
        | some k => .ok (⟨k, ⟨m⟩, pos⟩ :: rest)
        | none => .ok rest
termination_by s.length
decreasing_by
  have hspec := firstMatch_spec hm
  have hlen : 1 ≤ m.length := by
    cases m with
    | nil => exact absurd rfl hspec.1
    | cons a as => simp
  have hle : m.length ≤ (c :: rest0).length := hspec.2.length_le
  simp only [List.length_drop]
  simp only [List.length_cons] at hle ⊢
  omega

/-- Instrumented variant of `tokenize` recording every match, including the
skipped whitespace, as `(optional kind, matched substring, offset)`. -/
def lexSteps (pos : Nat) (s : Chars) :
    Except Err (List (Option TokKind × Chars × Nat)) :=
  match s with
  | [] => .ok []
  | c :: rest0 =>
    match hm : firstMatch (c :: rest0) with
    | none => .error (.lexErr c)
    | some (m, tt) =>
      match lexSteps (pos + m.length) ((c :: rest0).drop m.length) with
      | .error e => .error e
      | .ok rest => .ok ((tt, m, pos) :: rest)
termination_by s.length
decreasing_by
  have hspec := firstMatch_spec hm
  have hlen : 1 ≤ m.length := by
    cases m with
    | nil => exact absurd rfl hspec.1
    | cons a as => simp
  have hle : m.length ≤ (c :: rest0).length := hspec.2.length_le
  simp only [List.length_drop]
  simp only [List.length_cons] at hle ⊢
  omega

/-- The token a recorded lexer step contributes, if any. -/
def stepTok (st : Option TokKind × Chars × Nat) : Option Token :=
  st.1.map fun k => ⟨k, ⟨st.2.1⟩, st.2.2⟩

/-- Computational mirror of `tokenize`, structurally recursive on a fuel
bound so that concrete runs reduce definitionally.  `tokenize_eq_tokenizeF`
shows it agrees with `tokenize` whenever the fuel covers the input length
(every match consumes at least one character). -/
def tokenizeF : Nat → Nat → Chars → Except Err (List Token)
  | _, _, [] => .ok []
  | 0, _, _ :: _ => .error .outOfFuel
  | fuel + 1, pos, c :: rest0 =>
    match firstMatch (c :: rest0) with
    | none => .error (.lexErr c)
    | some (m, tt) =>
      match tokenizeF fuel (pos + m.length) ((c :: rest0).drop m.length) with
      | .error e => .error e
      | .ok rest =>
        match tt with
        | some k => .ok (⟨k, ⟨m⟩, pos⟩ :: rest)
        | none => .ok rest

theorem tokenize_nil (pos : Nat) : tokenize pos [] = .ok [] := by
  rw [tokenize]

/-- Unfolding lemma for `tokenize` when no rule matches at the cursor. -/
theorem tokenize_none (pos : Nat) (c : Char) (rest0 : Chars)
    (hm : firstMatch (c :: rest0) = none) :
    tokenize pos (c :: rest0) = .error (.lexErr c) := by
  rw [tokenize.eq_def]
  simp only
  split
  · rfl
  · next m tt hm' => rw [hm] at hm'; cases hm'

/-- Unfolding lemma for `tokenize` when a rule matches at the cursor. -/
theorem tokenize_step (pos : Nat) (c : Char) (rest0 m : Chars) (tt : Option TokKind)
    (hm : firstMatch (c :: rest0) = some (m, tt)) :
    tokenize pos (c :: rest0) =
      match tt with
      | some k => (tokenize (pos + m.length) ((c :: rest0).drop m.length)).map (⟨k, ⟨m⟩, pos⟩ :: ·)
      | none => tokenize (pos + m.length) ((c :: rest0).drop m.length) := by
  rw [tokenize.eq_def]
  simp only
  split
  · next hm' => rw [hm] at hm'; cases hm'
  · next m' tt' hm' =>
    rw [hm] at hm'
    have hmm : m = m' := congrArg Prod.fst (Option.some.inj hm')
    have htt : tt = tt' := congrArg Prod.snd (Option.some.inj hm')
    subst hmm
    subst htt
    cases tt with
    | none =>
      rcases tokenize (pos + m.length) ((c :: rest0).drop m.length) with e | rest
      · rfl
      · rfl
    | some k =>
      rcases tokenize (pos + m.length) ((c :: rest0).drop m.length) with e | rest
      · rfl
      · rfl

/-- Unfolding lemma for `tokenizeF` when a rule matches at the cursor. -/
theorem tokenizeF_step (n pos : Nat) (c : Char) (rest0 m : Chars) (tt : Option TokKind)
    (hm : firstMatch (c :: rest0) = some (m, tt)) :
    tokenizeF (n + 1) pos (c :: rest0) =
      match tt with
      | some k => (tokenizeF n (pos + m.length) ((c :: rest0).drop m.length)).map (⟨k, ⟨m⟩, pos⟩ :: ·)
      | none => tokenizeF n (pos + m.length) ((c :: rest0).drop m.length) := by
  rw [tokenizeF.eq_def]
  simp only [hm]
  cases tt with
  | none =>
    rcases tokenizeF n (pos + m.length) ((c :: rest0).drop m.length) with e | rest
    · rfl
    · rfl
  | some k =>
    rcases tokenizeF n (pos + m.length) ((c :: rest0).drop m.length) with e | rest
    · rfl
    · rfl

theorem tokenize_eq_tokenizeF :
    ∀ (n pos : Nat) (s : Chars), s.length ≤ n → tokenize pos s = tokenizeF n pos s := by
  intro n
  induction n with
  | zero =>
    intro pos s hs
    match s with
    | [] => rw [tokenize_nil, tokenizeF]
    | c :: rest0 => simp at hs
  | succ n ih =>
    intro pos s hs
    match s with
    | [] => rw [tokenize_nil, tokenizeF]
    | c :: rest0 =>
      rcases hm : firstMatch (c :: rest0) with _ | ⟨m, tt⟩
      · rw [tokenize_none pos c rest0 hm, tokenizeF.eq_def]
        simp only [hm]
      · have hspec := firstMatch_spec hm
        have hlen : 1 ≤ m.length := by
          cases m with
          | nil => exact absurd rfl hspec.1
          | cons a as => simp
        have hrec : tokenize (pos + m.length) ((c :: rest0).drop m.length) =
            tokenizeF n (pos + m.length) ((c :: rest0).drop m.length) := by
          apply ih
          have hle : m.length ≤ (c :: rest0).length := hspec.2.length_le
          simp only [List.length_drop]
          simp only [List.length_cons] at hle hs ⊢
          omega
        rw [tokenize_step pos c rest0 m tt hm, tokenizeF_step n pos c rest0 m tt hm, hrec]

/-! ### Values

Parsing produces Python values: ints, floats, strings, booleans, lists and
dicts.  Python lists are mutable objects aliased by reference — the in-place
operators of `parse_eval` can mutate a list after it was stored — so a list
value is a reference (`Val.ref`) into an explicit heap of list objects.
Dicts are never mutated after creation by this program, so they are kept
structural.  A float is modelled as the exact rational the division
produces. -/

inductive Val where
  | int (n : ℤ)
  | float (q : ℚ)
  | str (s : String)
  | bool (b : Bool)
  | ref (addr : Nat)
  | dict (entries : List (String × Val))
deriving Repr

/-- The heap of Python list objects, indexed by `Val.ref` addresses. -/
abbrev Heap := List (List Val)

/-- Parser state: the token cursor (`Lexer.tokens`, consumed from the front),
the symbol table (Python attribute `variables`, here `vars`), and the heap of list objects. -/
structure PState where
  tokens : List Token
  vars : List (String × Val)
  heap : Heap
deriving Repr

/-- Python dict insertion: overwrite in place if the key exists (keeping its
position), else append.  Used for dict literals and for `Parser.variables`. -/
def dinsert (m : List (String × Val)) (k : String) (v : Val) : List (String × Val) :=
  match m with
  | [] => [(k, v)]
  | (k', v') :: rest => if k' = k then (k', v) :: rest else (k', v') :: dinsert rest k v

/-- Python dict lookup. -/
def dlookup (m : List (String × Val)) (k : String) : Option Val :=
  match m with
  | [] => none
  | (k', v') :: rest => if k' = k then some v' else dlookup rest k

/-! ### Host arithmetic for `parse_eval`

The evaluation expression applies `+= -= *= /=` with Python's native dynamic
semantics on whatever operand types appear.  Booleans are ints (True is 1),
int op float promotes to float, str + str concatenates, str * int repeats,
list += iterable extends the list object in place, list *= int repeats it in
place, int * list allocates a fresh list, and anything else is a TypeError. -/

/-- A Python number: an int or a float. -/
inductive NumV where
  | i (n : ℤ)
  | f (q : ℚ)

/-- Numeric view of a value: bool counts as int, int and float as themselves. -/
def asNum : Val → Option NumV
  | .int n => some (.i n)
  | .bool b => some (.i (if b then 1 else 0))
  | .float q => some (.f q)
  | _ => none

/-- Integer view of a value (for sequence repetition counts): int or bool. -/
def asInt : Val → Option ℤ
  | .int n => some n
  | .bool b => some (if b then 1 else 0)
  | _ => none

def numToVal : NumV → Val
  | .i n => .int n
  | .f q => .float q

def numAdd : NumV → NumV → NumV
  | .i a, .i b => .i (a + b)
  | .i a, .f q => .f (a + q)
  | .f p, .i b => .f (p + b)
  | .f p, .f q => .f (p + q)

def numSub : NumV → NumV → NumV
  | .i a, .i b => .i (a - b)
  | .i a, .f q => .f (a - q)
  | .f p, .i b => .f (p - b)
  | .f p, .f q => .f (p - q)

def numMul : NumV → NumV → NumV
  | .i a, .i b => .i (a * b)
  | .i a, .f q => .f (a * q)
  | .f p, .i b => .f (p * b)
  | .f p, .f q => .f (p * q)

/-- The rational a Python number denotes. -/
def numQ : NumV → ℚ
  | .i n => (n : ℚ)
  | .f q => q

/-- The elements Python iterates over when extending a list with `+=`:
another list's contents, a string's characters, or a dict's keys. -/
def iterElems (heap : Heap) (v : Val) : Option (List Val) :=
  match v with
  | .ref a => heap.get? a
  | .str s => some (s.data.map fun c => Val.str ⟨[c]⟩)
  | .dict es => some (es.map fun e => Val.str e.1)
  | _ => none

/-- Python sequence repetition: `l * n` with a nonpositive count is empty. -/
def repeatList (l : List Val) (n : ℤ) : List Val :=
  (List.replicate n.toNat l).flatten

/-- Python string repetition. -/
def repeatStr (s : String) (n : ℤ) : String :=
  ⟨(List.replicate n.toNat s.data).flatten⟩

/-- `value += right`: list references extend the heap object in place,
strings concatenate, numbers add, everything else is a TypeError. -/
def pyAdd (heap : Heap) (value right : Val) : Except Err (Val × Heap) :=
  match value with
  | .ref a =>
    match iterElems heap right with
    | some ext =>
      match heap.get? a with
      | some l => .ok (.ref a, heap.set a (l ++ ext))
      | none => .error .typeErr
    | none => .error .typeErr
  | .str s =>
    match right with
    | .str t => .ok (.str (s ++ t), heap)
    | _ => .error .typeErr
  | _ =>
    match asNum value, asNum right with
    | some x, some y => .ok (numToVal (numAdd x y), heap)
    | _, _ => .error .typeErr

/-- `value -= right`: numbers only. -/
def pySub (heap : Heap) (value right : Val) : Except Err (Val × Heap) :=
  match asNum value, asNum right with
  | some x, some y => .ok (numToVal (numSub x y), heap)
  | _, _ => .error .typeErr

/-- `value *= right`: numbers multiply, str * int repeats, a list reference
times an int repeats the heap object in place, int * list allocates a fresh
repeated list, everything else is a TypeError. -/
def pyMul (heap : Heap) (value right : Val) : Except Err (Val × Heap) :=
  match value, right with
  | .str s, _ =>
    match asInt right with
    | some n => .ok (.str (repeatStr s n), heap)
    | none => .error .typeErr
  | _, .str t =>
    match asInt value with
    | some n => .ok (.str (repeatStr t n), heap)
    | none => .error .typeErr
  | .ref a, _ =>
    match asInt right with
    | some n =>
      match heap.get? a with
      | some l => .ok (.ref a, heap.set a (repeatList l n))
      | none => .error .typeErr
    | none => .error .typeErr
  | _, .ref a =>
    match asInt value with
    | some n =>
      match heap.get? a with
      | some l => .ok (.ref heap.length, heap ++ [repeatList l n])
      | none => .error .typeErr
    | none => .error .typeErr
  | _, _ =>
    match asNum value, asNum right with
    | some x, some y => .ok (numToVal (numMul x y), heap)
    | _, _ => .error .typeErr

/-- `value /= right` (true division, the zero check already done): numbers
divide producing a float, everything else is a TypeError. -/
def pyDiv (heap : Heap) (value right : Val) : Except Err (Val × Heap) :=
  match asNum value, asNum right with
  | some x, some y => .ok (.float (numQ x / numQ y), heap)
  | _, _ => .error .typeErr

/-- The Python test `right_value == 0` used before division: true for the int
zero, for False (a bool is an int) and for the float zero; strings, lists and
dicts never equal 0. -/
def eqZero : Val → Bool
  | .int n => n == 0
  | .bool b => !b
  | .float q => q == 0
  | _ => false

/-- Apply the operator of an evaluation expression.  For `DIVIDE` the
right-hand operand is tested against zero before any division happens. -/
def applyOp (op : TokKind) (heap : Heap) (value right : Val) :
    Except Err (Val × Heap) :=
  match op with
  | .PLUS => pyAdd heap value right
  | .MINUS => pySub heap value right
  | .MULTIPLY => pyMul heap value right
  | .DIVIDE => if eqZero right then .error .zeroDiv else pyDiv heap value right
  | _ => .error .typeErr

/-- `int(lexeme)` on the digit-only lexeme of a NUMBER token. -/
def strToNatAux (acc : Nat) : Chars → Nat
  | [] => acc
  | c :: cs => strToNatAux (acc * 10 + (c.toNat - 48)) cs

def pyInt (s : String) : ℤ :=
  Int.ofNat (strToNatAux 0 s.data)

/-- Python `lexeme.strip` with the quote character: drop all leading and
trailing double quotes. -/
def pyStripQuote (s : String) : String :=
  ⟨((s.data.dropWhile (fun c => c == '"')).reverse.dropWhile (fun c => c == '"')).reverse⟩

/-! ### The parser (`Parser` in src/main.py)

Each method becomes a function threading `PState`.  Python's unbounded call
stack is modelled by a fuel parameter, one unit per call or loop iteration;
running out of fuel is the modelled stack exhaustion.  `peek` is the head of
`tokens`, `next_token` removes it; subscripting a `None` result of either is
the modelled TypeError `Err.noneSubscript`. -/

/-- `Parser.expect`: pop the next token and fail with a syntax error naming
the expected kind (the found slot is `none` at end of input) on mismatch. -/
def expect (k : TokKind) (st : PState) : Except Err PState :=
  match st.tokens with
  | [] => .error (.synExpect k none)
  | t :: rest => if t.kind = k then .ok { st with tokens := rest } else .error (.synExpect k (some t))

/-- Tail of `Parser.parse_array`: consume the mandatory ARRAY_END and return
the collected elements as a fresh list object on the heap. -/
def array_finish (st : PState) (acc : List Val) : Except Err (Val × PState) :=
  match expect .ARRAY_END st with
  | .error e => .error e
  | .ok st' => .ok (.ref st'.heap.length, { st' with heap := st'.heap ++ [acc] })

/-- Tail of `Parser.parse_dict`: consume the mandatory DICT_END and return
the mapping in insertion order. -/
def dict_finish (st : PState) (acc : List (String × Val)) : Except Err (Val × PState) :=
  match expect .DICT_END st with
  | .error e => .error e
  | .ok st' => .ok (.dict acc, st')

mutual

/-- `Parser.parse_value`: dispatch on the kind of the peeked token; at end of
input the Python subscript of `None` raises a TypeError. -/
def parse_value : Nat → PState → Except Err (Val × PState)
  | 0, _ => .error .outOfFuel
  | fuel + 1, st =>
    match st.tokens with
    | [] => .error .noneSubscript
    | t :: rest =>
      match t.kind with
      | .NUMBER => .ok (.int (pyInt t.lexeme), { st with tokens := rest })
      | .STRING => .ok (.str (pyStripQuote t.lexeme), { st with tokens := rest })
      | .BOOLEAN => .ok (.bool (t.lexeme == "true"), { st with tokens := rest })
      | .ARRAY_START => parse_array fuel st
      | .DICT_START => parse_dict fuel st
      | .EVAL => parse_eval fuel st
      | _ => .error (.synUnexpectedValue t)

/-- `Parser.parse_array`: pop the ARRAY_START, then loop. -/
def parse_array : Nat → PState → Except Err (Val × PState)
  | 0, _ => .error .outOfFuel
  | fuel + 1, st => parse_array_loop fuel { st with tokens := st.tokens.drop 1 } []

/-- The while loop of `parse_array`: while the peeked token exists and is not
ARRAY_END, parse a value and append it; then the unguarded
`peek()[0] == "COMMA"` check subscripts `None` at end of input. -/
def parse_array_loop : Nat → PState → List Val → Except Err (Val × PState)
  | 0, _, _ => .error .outOfFuel
  | fuel + 1, st, acc =>
    match st.tokens with
    | [] => array_finish st acc
    | t :: _ =>
      if t.kind = .ARRAY_END then array_finish st acc
      else
        match parse_value fuel st with
        | .error e => .error e
        | .ok (v, st') =>
          match st'.tokens with
          | [] => .error .noneSubscript
          | u :: us =>
            if u.kind = .COMMA then parse_array_loop fuel { st' with tokens := us } (acc ++ [v])
            else parse_array_loop fuel st' (acc ++ [v])

/-- `Parser.parse_dict`: pop the DICT_START, then loop. -/
def parse_dict : Nat → PState → Except Err (Val × PState)
  | 0, _ => .error .outOfFuel
  | fuel + 1, st => parse_dict_loop fuel { st with tokens := st.tokens.drop 1 } []

/-- The while loop of `parse_dict`: while the peeked token exists and is not
DICT_END, pop a key (which must be an identifier), expect EQUALS, parse a
value, insert the entry (last write wins); then the unguarded
`peek()[0] == "SEMICOLON"` check subscripts `None` at end of input. -/
def parse_dict_loop : Nat → PState → List (String × Val) → Except Err (Val × PState)
  | 0, _, _ => .error .outOfFuel
  | fuel + 1, st, acc =>
    match st.tokens with
    | [] => dict_finish st acc
    | t :: rest =>
      if t.kind = .DICT_END then dict_finish st acc
      else if t.kind = .IDENTIFIER then
        match expect .EQUALS { st with tokens := rest } with
        | .error e => .error e
        | .ok st₁ =>
          match parse_value fuel st₁ with
          | .error e => .error e
          | .ok (v, st') =>
            match st'.tokens with
            | [] => .error .noneSubscript
            | u :: us =>
              if u.kind = .SEMICOLON then
                parse_dict_loop fuel { st' with tokens := us } (dinsert acc t.lexeme v)
              else parse_dict_loop fuel st' (dinsert acc t.lexeme v)
      else .error .synExpectedIdentKey

/-- `Parser.parse_eval`: pop the EVAL marker and an identifier, look it up in
the symbol table (read), then optionally apply one operator with the host
semantics of `applyOp`. -/
def parse_eval : Nat → PState → Except Err (Val × PState)
  | 0, _ => .error .outOfFuel
  | fuel + 1, st =>
    match st.tokens with
    | [] => .error .noneSubscript
    | [_] => .error .noneSubscript
    | _ :: idt :: rest =>
      if idt.kind = .IDENTIFIER then
        match dlookup st.vars idt.lexeme with
        | none => .error (.undefinedVar idt.lexeme)
        | some value =>
          match rest with
          | [] => .ok (value, { st with tokens := [] })
          | t :: ts =>
            if [TokKind.PLUS, .MINUS, .MULTIPLY, .DIVIDE].contains t.kind then
              match parse_value fuel { st with tokens := ts } with
              | .error e => .error e
              | .ok (right, st') =>
                match applyOp t.kind st'.heap value right with
                | .error e => .error e
                | .ok (v', heap') => .ok (v', { st' with heap := heap' })
            else .ok (value, { st with tokens := rest })
      else .error .synExpectedIdentAfterEval

end

/-- `Parser.parse_var`: pop the VAR keyword and an identifier, expect EQUALS,
parse a value, store it in the symbol table (overwriting any prior entry) and
return the single-entry mapping. -/
def parse_var : Nat → PState → Except Err (Val × PState)
  | 0, _ => .error .outOfFuel
  | fuel + 1, st =>
    match st.tokens with
    | [] => .error .noneSubscript
    | [_] => .error .noneSubscript
    | _ :: idt :: rest =>
      if idt.kind = .IDENTIFIER then
        match expect .EQUALS { st with tokens := rest } with
        | .error e => .error e
        | .ok st₁ =>
          match parse_value fuel st₁ with
          | .error e => .error e
          | .ok (v, st₂) =>
            .ok (.dict [(idt.lexeme, v)],
                 { st₂ with vars := dinsert st₂.vars idt.lexeme v })
      else .error .synExpectedIdentAfterVar

/-- `Parser.statement`: dispatch on the peeked token kind; any other leading
token is the syntax error carrying the whole token. -/
def statement : Nat → PState → Except Err (Val × PState)
  | 0, _ => .error .outOfFuel
  | fuel + 1, st =>
    match st.tokens with
    | [] => .error .noneSubscript
    | t :: _ =>
      match t.kind with
      | .VAR => parse_var fuel st
      | .DICT_START => parse_dict fuel st
      | .ARRAY_START => parse_array fuel st
      | _ => .error (.synUnexpectedToken t)

/-- The while loop of `Parser.parse`: one statement per iteration while
tokens remain, collecting results in order. -/
def parseLoop : Nat → PState → List Val → Except Err (List Val × PState)
  | 0, _, _ => .error .outOfFuel
  | fuel + 1, st, acc =>
    match st.tokens with
    | [] => .ok (acc, st)
    | _ :: _ =>
      match statement fuel st with
      | .error e => .error e
      | .ok (v, st') => parseLoop fuel st' (acc ++ [v])

/-- The top-level result: `result if len(result) > 1 else result[0]`. -/
inductive TopResult where
  | one (v : Val)
  | multi (vs : List Val)
deriving Repr

/-- `Parser.parse`: the statement loop, then the final
`result if len(result) > 1 else result[0]` — which subscripts an empty list
(the modelled IndexError) when no statement was parsed. -/
def parse (fuel : Nat) (st : PState) : Except Err (TopResult × PState) :=
  match parseLoop fuel st [] with
  | .error e => .error e
  | .ok (results, st') =>
    if results.length > 1 then .ok (.multi results, st')
    else
      match results with
      | [] => .error .indexErr
      | v :: _ => .ok (.one v, st')

/-- The whole pipeline on a source text: eager lexing, then one parse over
the owned token list with a fresh symbol table and heap.  The fuel is ample
for the token count (Python's stack is the real bound, see `Err.outOfFuel`). -/
def run (src : String) : Except Err (TopResult × PState) :=
  match tokenize 0 src.data with
  | .error e => .error e
  | .ok toks => parse (2 * toks.length + 8) ⟨toks, [], []⟩

/-- Computational mirror of `run` built on `tokenizeF`, so that concrete
pipeline runs reduce definitionally. -/
def runF (src : String) : Except Err (TopResult × PState) :=
  match tokenizeF src.data.length 0 src.data with
  | .error e => .error e
  | .ok toks => parse (2 * toks.length + 8) ⟨toks, [], []⟩

theorem run_eq_runF (src : String) : run src = runF src := by
  rw [run, runF, tokenize_eq_tokenizeF src.data.length 0 src.data (le_refl _)]

/-! ### Pure documents

`Doc` is the pure tree a value denotes once list references are chased
through the heap; `deref` computes it (fuel-bounded, since the in-place
operators can create cyclic lists). -/

inductive Doc where
  | int (n : ℤ)
  | float (q : ℚ)
  | str (s : String)
  | bool (b : Bool)
  | seq (l : List Doc)
  | map (l : List (String × Doc))
deriving Repr

def deref (heap : Heap) : Nat → Val → Option Doc
  | 0, _ => none
  | fuel + 1, v =>
    match v with
    | .int n => some (.int n)
    | .float q => some (.float q)
    | .str s => some (.str s)
    | .bool b => some (.bool b)
    | .ref a =>
      match heap.get? a with
      | some l => (l.mapM (deref heap fuel)).map .seq
      | none => none
    | .dict es =>
      (es.mapM fun e => (deref heap fuel e.2).map fun d => (e.1, d)).map .map

/-! ### Small facts about the symbol table -/

theorem dlookup_dinsert (m : List (String × Val)) (k : String) (v : Val) :
    dlookup (dinsert m k v) k = some v := by
  induction m with
  | nil => simp [dinsert, dlookup]
  | cons p rest ih =>
    obtain ⟨k', v'⟩ := p
    by_cases hk : k' = k
    · simp [dinsert, dlookup, hk]
    · simp [dinsert, dlookup, hk, ih]

/-! ### Preservation of the symbol table

No parse function other than `parse_var` ever assigns to the symbol table:
`parse_value`, the literal parsers and `parse_eval` can consume tokens and
mutate the heap, but the variables mapping is untouched. -/

theorem expect_vars (k : TokKind) (st st' : PState) (h : expect k st = .ok st') :
    st'.vars = st.vars := by
  unfold expect at h
  split at h
  · cases h
  · split at h
    · cases h; rfl
    · cases h

theorem array_finish_vars (st : PState) (acc : List Val) (r : Val) (st' : PState)
    (h : array_finish st acc = .ok (r, st')) : st'.vars = st.vars := by
  unfold array_finish at h
  split at h
  · cases h
  · next st₁ he =>
    cases h
    have hv := expect_vars _ _ _ he
    exact hv

theorem dict_finish_vars (st : PState) (acc : List (String × Val)) (r : Val) (st' : PState)
    (h : dict_finish st acc = .ok (r, st')) : st'.vars = st.vars := by
  unfold dict_finish at h
  split at h
  · cases h
  · next st₁ he =>
    cases h
    exact expect_vars _ _ _ he

theorem parse_funcs_preserve_vars :
    ∀ fuel : Nat,
      (∀ st r st', parse_value fuel st = .ok (r, st') → st'.vars = st.vars) ∧
      (∀ st r st', parse_array fuel st = .ok (r, st') → st'.vars = st.vars) ∧
      (∀ st acc r st', parse_array_loop fuel st acc = .ok (r, st') → st'.vars = st.vars) ∧
      (∀ st r st', parse_dict fuel st = .ok (r, st') → st'.vars = st.vars) ∧
      (∀ st acc r st', parse_dict_loop fuel st acc = .ok (r, st') → st'.vars = st.vars) ∧
      (∀ st r st', parse_eval fuel st = .ok (r, st') → st'.vars = st.vars) := by
  intro fuel
  induction fuel with
  | zero =>
    refine ⟨?_, ?_, ?_, ?_, ?_, ?_⟩
    · intro st r st' h; rw [parse_value] at h; cases h
    · intro st r st' h; rw [parse_array] at h; cases h
    · intro st acc r st' h; rw [parse_array_loop] at h; cases h
    · intro st r st' h; rw [parse_dict] at h; cases h
    · intro st acc r st' h; rw [parse_dict_loop] at h; cases h
    · intro st r st' h; rw [parse_eval] at h; cases h
  | succ fuel ih =>
    obtain ⟨ihv, iha, ihal, ihd, ihdl, ihe⟩ := ih
    have harr : ∀ st r st', parse_array (fuel + 1) st = .ok (r, st') → st'.vars = st.vars := by
      intro st r st' h
      rw [parse_array] at h
      have h1 := ihal _ _ _ _ h
      exact h1
    have hdict : ∀ st r st', parse_dict (fuel + 1) st = .ok (r, st') → st'.vars = st.vars := by
      intro st r st' h
      rw [parse_dict] at h
      have h1 := ihdl _ _ _ _ h
      exact h1
    have heval : ∀ st r st', parse_eval (fuel + 1) st = .ok (r, st') → st'.vars = st.vars := by
      intro st r st' h
      rw [parse_eval] at h
      split at h
      · cases h
      · cases h
      · split at h
        · split at h
          · cases h
          · split at h
            · cases h; rfl
            · split at h
              · split at h
                · cases h
                · next st₁ hpv =>
                  split at h
                  · cases h
                  · cases h
                    have h2 := ihv _ _ _ hpv
                    exact h2
              · cases h; rfl
        · cases h
    have hval : ∀ st r st', parse_value (fuel + 1) st = .ok (r, st') → st'.vars = st.vars := by
      intro st r st' h
      rw [parse_value] at h
      split at h
      · cases h
      · split at h
        · cases h; rfl
        · cases h; rfl
        · cases h; rfl
        · exact iha _ _ _ h
        · exact ihd _ _ _ h
        · exact ihe _ _ _ h
        · cases h
    refine ⟨hval, harr, ?_, hdict, ?_, heval⟩
    · intro st acc r st' h
      rw [parse_array_loop] at h
      split at h
      · exact array_finish_vars _ _ _ _ h
      · split at h
        · exact array_finish_vars _ _ _ _ h
        · split at h
          · cases h
          · next v st₁ hpv =>
            split at h
            · cases h
            · split at h
              · have h1 := ihal _ _ _ _ h
                have h2 := ihv _ _ _ hpv
                exact h1.trans h2
              · have h1 := ihal _ _ _ _ h
                have h2 := ihv _ _ _ hpv
                exact h1.trans h2
    · intro st acc r st' h
      rw [parse_dict_loop] at h
      split at h
      · exact dict_finish_vars _ _ _ _ h
      · split at h
        · exact dict_finish_vars _ _ _ _ h
        · split at h
          · split at h
            · cases h
            · next st₁ hexp =>
              split at h
              · cases h
              · next v st₂ hpv =>
                split at h
                · cases h
                · split at h
                  · have h1 := ihdl _ _ _ _ h
                    have h2 := ihv _ _ _ hpv
                    have h3 := expect_vars _ _ _ hexp
                    exact h1.trans (h2.trans h3)
                  · have h1 := ihdl _ _ _ _ h
                    have h2 := ihv _ _ _ hpv
                    have h3 := expect_vars _ _ _ hexp
                    exact h1.trans (h2.trans h3)
          · cases h

/-! ### Claim C3 -/

/-- C3 counterexample: evaluating an evaluation expression CAN change the
document a symbol-table entry holds.  With x bound to the sequence [1], the
expression with + and the operand sequence (2) succeeds and extends the
stored list object in place: the entry for x keeps the same reference, but
the document it denotes changes from [1] to [1, 2]. -/
theorem c3_counterexample :
    parse_eval 9 ⟨[⟨.EVAL, "^", 0⟩, ⟨.IDENTIFIER, "x", 1⟩, ⟨.PLUS, "+", 3⟩,
        ⟨.ARRAY_START, "(", 5⟩, ⟨.NUMBER, "2", 6⟩, ⟨.ARRAY_END, ")", 7⟩],
      [("x", .ref 0)], [[.int 1]]⟩ =
      .ok (.ref 0, ⟨[], [("x", .ref 0)], [[.int 1, .int 2], [.int 2]]⟩) ∧
    deref [[Val.int 1]] 3 (.ref 0) = some (.seq [.int 1]) ∧
    deref [[Val.int 1, Val.int 2], [Val.int 2]] 3 (.ref 0) = some (.seq [.int 1, .int 2]) ∧
    (some (Doc.seq [.int 1]) : Option Doc) ≠ some (.seq [.int 1, .int 2]) := by
  refine ⟨rfl, rfl, rfl, by simp⟩

/-- C3 amended: a successful evaluation expression never rebinds any
symbol-table entry — the variables mapping is identical before and after —
but it is not read-only on the documents those entries denote: when the
looked-up value is a reference to a sequence and + or * is applied, the
sequence object is mutated in place (see the counterexample), so the entry
can come to hold a different document value. -/
theorem c3_amended (fuel : Nat) (st : PState) (r : Val) (st' : PState)
    (h : parse_eval fuel st = .ok (r, st')) : st'.vars = st.vars :=
  (parse_funcs_preserve_vars fuel).2.2.2.2.2 st r st' h

/-- C3 amended witness: a concrete successful evaluation, with x bound to the
scalar 5, leaves the symbol table unchanged. -/
theorem c3_amended_witness :
    (PState.mk [] [("x", Val.int 5)] []).vars =
      (PState.mk [⟨.EVAL, "^", 0⟩, ⟨.IDENTIFIER, "x", 1⟩] [("x", Val.int 5)] []).vars :=
  c3_amended 1 ⟨[⟨.EVAL, "^", 0⟩, ⟨.IDENTIFIER, "x", 1⟩], [("x", Val.int 5)], []⟩
    (Val.int 5) ⟨[], [("x", Val.int 5)], []⟩ rfl

/-! ### Claim C1 -/

/-- C1 counterexample: the source with the separating semicolon,
`var a = 1; var b = 2`, does NOT parse to a sequence of two mappings — the
top-level statement dispatch has no case for SEMICOLON, so the parse aborts
with the unexpected-token syntax error at the `;` (offset 9). -/
theorem c1_counterexample :
    run ("var a = 1; var b = 2") =
      .error (.synUnexpectedToken ⟨.SEMICOLON, ";", 9⟩) := by
  rw [run_eq_runF]; rfl

/-- C1 amended: a top-level semicolon separator is an unexpected-token syntax
error; written as two adjacent statements without the semicolon,
`var a = 1 var b = 2` yields the ordered sequence of exactly the two
single-entry mappings, in source order, and not a merged mapping. -/
theorem c1_amended :
    run ("var a = 1 var b = 2") =
      .ok (.multi [.dict [("a", .int 1)], .dict [("b", .int 2)]],
           ⟨[], [("a", .int 1), ("b", .int 2)], []⟩) := by
  rw [run_eq_runF]; rfl

/-! ### Claim C2 -/

/-- C2: on the malformed input with a missing closing brace the parse never
reaches the DICT_END expectation: after the entry `a = 1` is stored, the
unguarded lookahead `peek()[0] == "SEMICOLON"` subscripts `None`, so the code
dies with a TypeError instead of the documented syntax error naming DICT_END
and end of input. -/
theorem c2_behavior : run ("@\x7b a = 1") = .error .noneSubscript := by
  rw [run_eq_runF]; rfl

/-! ### Claim C5 -/

/-- C5 counterexample: the lexical error for an unrecognized character
carries the character but no offset — lexing the same `$` at offset 0 and at
offset 1 produces the very same error value, so the payload cannot name the
offset. -/
theorem c5_counterexample :
    tokenize 0 ("$").data = .error (.lexErr '$') ∧
    tokenize 0 (" $").data = .error (.lexErr '$') ∧
    tokenize 0 ("$").data = tokenize 0 (" $").data := by
  have h1 : tokenize 0 ("$").data = .error (.lexErr '$') := by
    rw [tokenize_eq_tokenizeF 1 0 _ (by decide)]; rfl
  have h2 : tokenize 0 (" $").data = .error (.lexErr '$') := by
    rw [tokenize_eq_tokenizeF 2 0 _ (by decide)]; rfl
  exact ⟨h1, h2, h1.trans h2.symm⟩

/-- C5 amended: whenever no lexical rule matches at the cursor, the lexer
fails with a lexical error naming the offending character (the character at
the cursor); the offset is tracked by the lexer but not part of the error
payload. -/
theorem c5_amended (pos : Nat) (c : Char) (rest : Chars)
    (h : firstMatch (c :: rest) = none) :
    tokenize pos (c :: rest) = .error (.lexErr c) := by
  rw [tokenize.eq_def]
  simp only
  split
  · rfl
  · next m tt hm => rw [h] at hm; cases hm

/-- C5 amended, witness at the concrete input from the spec: the character
`$` matches no rule and lexing it fails with the error naming `$`. -/
theorem c5_amended_witness : tokenize 0 ('$' :: []) = .error (.lexErr '$') :=
  c5_amended 0 '$' [] (by decide)

/-! ### Claim C6 -/

/-- C6 counterexample: sources that tokenize to zero tokens do not parse to
an empty sequence — `result[0]` on the empty result list raises an
IndexError. -/
theorem c6_counterexample :
    run ("") = .error .indexErr ∧ run ("   ") = .error .indexErr := by
  constructor
  · rw [run_eq_runF]; rfl
  · rw [run_eq_runF]; rfl

/-- C6 amended: for every state with no tokens (any positive fuel, any symbol
table, any heap) the parse loop collects zero statements and the final
`result[0]` fails with the modelled IndexError instead of returning an empty
sequence. -/
theorem c6_amended (fuel : Nat) (v : List (String × Val)) (h : Heap) :
    parse (fuel + 1) ⟨[], v, h⟩ = .error .indexErr := by
  simp [parse, parseLoop]

/-! ### Claim C8 -/

/-- C8: an evaluation expression over an identifier absent from the symbol
table fails immediately with the undefined-variable error carrying the name —
a ValueError, distinguishable from every SyntaxError — and never returns a
default value. -/
theorem c8_undefined_var (fuel : Nat) (st : PState) (t0 idt : Token)
    (rest : List Token)
    (htoks : st.tokens = t0 :: idt :: rest)
    (hkind : idt.kind = .IDENTIFIER)
    (hlook : dlookup st.vars idt.lexeme = none) :
    parse_eval (fuel + 1) st = .error (.undefinedVar idt.lexeme) ∧
    pyExcClass (.undefinedVar idt.lexeme) = .valueError ∧
    pyExcClass (.undefinedVar idt.lexeme) ≠ .syntaxError := by
  refine ⟨?_, rfl, by simp [pyExcClass]⟩
  rw [parse_eval, htoks]
  simp [hkind, hlook]

/-- C8 witness: `^y` with an empty symbol table fails with the
undefined-variable ValueError. -/
theorem c8_witness :
    parse_eval 1 ⟨[⟨.EVAL, "^", 0⟩, ⟨.IDENTIFIER, "y", 1⟩], [], []⟩ =
      .error (.undefinedVar "y") ∧
    pyExcClass (.undefinedVar "y") = .valueError ∧
    pyExcClass (.undefinedVar "y") ≠ .syntaxError :=
  c8_undefined_var 0 ⟨[⟨.EVAL, "^", 0⟩, ⟨.IDENTIFIER, "y", 1⟩], [], []⟩
    ⟨.EVAL, "^", 0⟩ ⟨.IDENTIFIER, "y", 1⟩ [] rfl rfl rfl

/-! ### Claim C10 -/

/-- C10 counterexample: `var1` is an identifier-shaped word continuing the
keyword `var` with the identifier character `1`, but the remainder is lexed
as a NUMBER token, not as the IDENTIFIER token the claim asserts. -/
theorem c10_counterexample :
    tokenize 0 ("var1").data = .ok [⟨.VAR, "var", 0⟩, ⟨.NUMBER, "1", 3⟩] ∧
    tokenize 0 ("var1").data ≠ .ok [⟨.VAR, "var", 0⟩, ⟨.IDENTIFIER, "1", 3⟩] := by
  have h : tokenize 0 ("var1").data = .ok [⟨.VAR, "var", 0⟩, ⟨.NUMBER, "1", 3⟩] := by
    rw [tokenize_eq_tokenizeF 4 0 _ (by decide)]; rfl
  refine ⟨h, ?_⟩
  rw [h]
  simp

/-! ### Claim C7 -/

/-- C7: a declaration statement whose tokens are VAR, an identifier x, EQUALS
and then a value parse yielding v: (a) `parse_var` returns the single-entry
mapping binding x to v and stores x with value v in the symbol table,
overwriting any previous binding (`dinsert`); (b) looking x up afterwards
yields exactly v; (c) a subsequent evaluation expression over the same name,
with no operator following, resolves to exactly v from any state whose table
still binds the name to v. -/
theorem c7_var_decl (fuel : Nat) (st : PState) (t0 idt te : Token)
    (rest : List Token) (v : Val) (st₂ : PState)
    (htoks : st.tokens = t0 :: idt :: te :: rest)
    (hid : idt.kind = .IDENTIFIER)
    (heq : te.kind = .EQUALS)
    (hval : parse_value fuel ⟨rest, st.vars, st.heap⟩ = .ok (v, st₂)) :
    parse_var (fuel + 1) st =
      .ok (.dict [(idt.lexeme, v)], { st₂ with vars := dinsert st₂.vars idt.lexeme v }) ∧
    dlookup (dinsert st₂.vars idt.lexeme v) idt.lexeme = some v ∧
    (∀ (g : Nat) (e0 i2 : Token) (rest2 : List Token)
        (table : List (String × Val)) (hp : Heap),
      i2.kind = .IDENTIFIER → i2.lexeme = idt.lexeme →
      dlookup table idt.lexeme = some v →
      (∀ u us, rest2 = u :: us →
        ([TokKind.PLUS, .MINUS, .MULTIPLY, .DIVIDE].contains u.kind) = false) →
      parse_eval (g + 1) ⟨e0 :: i2 :: rest2, table, hp⟩ = .ok (v, ⟨rest2, table, hp⟩)) := by
  refine ⟨?_, dlookup_dinsert _ _ _, ?_⟩
  · rw [parse_var, htoks]
    simp only [hid, if_true, expect, heq, hval]
  · intro g e0 i2 rest2 table hp hik hilex hlook hop
    rw [parse_eval]
    simp only [hik, if_true, hilex, hlook]
    match rest2, hop with
    | [], _ => rfl
    | u :: us, hop =>
      simp only [hop u us rfl]
      rfl

/-- C7 witness: parsing the statement with tokens for var x = 5 returns the
mapping binding x to 5, the stored entry resolves to 5, and a following
plain evaluation of x yields 5. -/
theorem c7_witness :
    parse_var 2 ⟨[⟨.VAR, "var", 0⟩, ⟨.IDENTIFIER, "x", 4⟩, ⟨.EQUALS, "=", 6⟩,
        ⟨.NUMBER, "5", 8⟩], [], []⟩ =
      .ok (.dict [("x", .int 5)], ⟨[], [("x", .int 5)], []⟩) ∧
    dlookup [("x", Val.int 5)] "x" = some (.int 5) ∧
    (∀ (g : Nat) (e0 i2 : Token) (rest2 : List Token)
        (table : List (String × Val)) (hp : Heap),
      i2.kind = .IDENTIFIER → i2.lexeme = "x" →
      dlookup table "x" = some (.int 5) →
      (∀ u us, rest2 = u :: us →
        ([TokKind.PLUS, .MINUS, .MULTIPLY, .DIVIDE].contains u.kind) = false) →
      parse_eval (g + 1) ⟨e0 :: i2 :: rest2, table, hp⟩ =
        .ok (.int 5, ⟨rest2, table, hp⟩)) :=
  c7_var_decl 1
    ⟨[⟨.VAR, "var", 0⟩, ⟨.IDENTIFIER, "x", 4⟩, ⟨.EQUALS, "=", 6⟩, ⟨.NUMBER, "5", 8⟩], [], []⟩
    ⟨.VAR, "var", 0⟩ ⟨.IDENTIFIER, "x", 4⟩ ⟨.EQUALS, "=", 6⟩
    [⟨.NUMBER, "5", 8⟩] (Val.int 5) ⟨[], [], []⟩ rfl rfl rfl rfl

/-! ### Claim C9 -/

theorem lexSteps_nil (pos : Nat) : lexSteps pos [] = .ok [] := by
  rw [lexSteps]

theorem lexSteps_none (pos : Nat) (c : Char) (rest0 : Chars)
    (hm : firstMatch (c :: rest0) = none) :
    lexSteps pos (c :: rest0) = .error (.lexErr c) := by
  rw [lexSteps.eq_def]
  simp only
  split
  · rfl
  · next m tt hm' => rw [hm] at hm'; cases hm'

theorem lexSteps_step (pos : Nat) (c : Char) (rest0 m : Chars) (tt : Option TokKind)
    (hm : firstMatch (c :: rest0) = some (m, tt)) :
    lexSteps pos (c :: rest0) =
      (lexSteps (pos + m.length) ((c :: rest0).drop m.length)).map ((tt, m, pos) :: ·) := by
  rw [lexSteps.eq_def]
  simp only
  split
  · next hm' => rw [hm] at hm'; cases hm'
  · next m' tt' hm' =>
    rw [hm] at hm'
    have hmm : m = m' := congrArg Prod.fst (Option.some.inj hm')
    have htt : tt = tt' := congrArg Prod.snd (Option.some.inj hm')
    subst hmm
    subst htt
    rcases lexSteps (pos + m.length) ((c :: rest0).drop m.length) with e | steps
    · rfl
    · rfl

theorem tokenize_eq_lexSteps :
    ∀ (n pos : Nat) (s : Chars), s.length ≤ n →
      tokenize pos s = (lexSteps pos s).map fun steps => steps.filterMap stepTok := by
  intro n
  induction n with
  | zero =>
    intro pos s hs
    match s with
    | [] => rw [tokenize_nil, lexSteps_nil]; rfl
    | c :: rest0 => simp at hs
  | succ n ih =>
    intro pos s hs
    match s with
    | [] => rw [tokenize_nil, lexSteps_nil]; rfl
    | c :: rest0 =>
      rcases hm : firstMatch (c :: rest0) with _ | ⟨m, tt⟩
      · rw [tokenize_none _ _ _ hm, lexSteps_none _ _ _ hm]; rfl
      · have hspec := firstMatch_spec hm
        have hlen : 1 ≤ m.length := by
          cases m with
          | nil => exact absurd rfl hspec.1
          | cons a as => simp
        have hrec := ih (pos + m.length) ((c :: rest0).drop m.length) (by
          have hle : m.length ≤ (c :: rest0).length := hspec.2.length_le
          simp only [List.length_drop]
          simp only [List.length_cons] at hle hs ⊢
          omega)
        rw [tokenize_step _ _ _ _ _ hm, lexSteps_step _ _ _ _ _ hm, hrec]
        cases tt with
        | none =>
          rcases lexSteps (pos + m.length) ((c :: rest0).drop m.length) with e | steps
          · rfl
          · rfl
        | some k =>
          rcases lexSteps (pos + m.length) ((c :: rest0).drop m.length) with e | steps
          · rfl
          · rfl

theorem lexSteps_flatten :
    ∀ (n pos : Nat) (s : Chars) (steps : List (Option TokKind × Chars × Nat)),
      s.length ≤ n → lexSteps pos s = .ok steps →
      (steps.map fun st => st.2.1).flatten = s := by
  intro n
  induction n with
  | zero =>
    intro pos s steps hs h
    match s with
    | [] => rw [lexSteps_nil] at h; cases h; rfl
    | c :: rest0 => simp at hs
  | succ n ih =>
    intro pos s steps hs h
    match s with
    | [] => rw [lexSteps_nil] at h; cases h; rfl
    | c :: rest0 =>
      rcases hm : firstMatch (c :: rest0) with _ | ⟨m, tt⟩
      · rw [lexSteps_none _ _ _ hm] at h; cases h
      · have hspec := firstMatch_spec hm
        have hlen : 1 ≤ m.length := by
          cases m with
          | nil => exact absurd rfl hspec.1
          | cons a as => simp
        rw [lexSteps_step _ _ _ _ _ hm] at h
        rcases hrec : lexSteps (pos + m.length) ((c :: rest0).drop m.length) with e | steps'
        · rw [hrec] at h; cases h
        · rw [hrec] at h
          cases h
          have hjoin := ih (pos + m.length) ((c :: rest0).drop m.length) steps' (by
            have hle : m.length ≤ (c :: rest0).length := hspec.2.length_le
            simp only [List.length_drop]
            simp only [List.length_cons] at hle hs ⊢
            omega) hrec
          obtain ⟨t, ht⟩ := hspec.2
          simp only [List.map_cons, List.flatten_cons, hjoin]
          rw [← ht, List.drop_left]

/-- C9: lexing is lossless: whenever `tokenize` succeeds, the instrumented
lexer run records one matched substring per step, in source order, whose
concatenation (the token lexemes together with the skipped whitespace
matches in place) is exactly the original text, and dropping the whitespace
steps yields exactly the produced tokens, each carrying its offset. -/
theorem c9_lossless (s : Chars) (toks : List Token)
    (h : tokenize 0 s = .ok toks) :
    ∃ steps, lexSteps 0 s = .ok steps ∧
      (steps.map fun st => st.2.1).flatten = s ∧
      steps.filterMap stepTok = toks := by
  have heq := tokenize_eq_lexSteps s.length 0 s (le_refl _)
  rw [h] at heq
  rcases hls : lexSteps 0 s with e | steps
  · rw [hls] at heq; cases heq
  · rw [hls] at heq
    refine ⟨steps, rfl, lexSteps_flatten s.length 0 s steps (le_refl _) hls, ?_⟩
    exact (Except.ok.inj heq).symm

/-- C9 witness at the concrete source var x: the recorded matches flatten
back to the source and filter to the two produced tokens. -/
theorem c9_witness :
    ∃ steps, lexSteps 0 ("var x").data = .ok steps ∧
      (steps.map fun st => st.2.1).flatten = ("var x").data ∧
      steps.filterMap stepTok = [⟨.VAR, "var", 0⟩, ⟨.IDENTIFIER, "x", 4⟩] :=
  c9_lossless ("var x").data [⟨.VAR, "var", 0⟩, ⟨.IDENTIFIER, "x", 4⟩]
    (by rw [tokenize_eq_tokenizeF 5 0 _ (by decide)]; rfl)

/-! ### Claim C10, amended part -/

theorem matchLit_head_ne (d : Char) (lt : Chars) (c : Char) (rest : Chars)
    (h : (d == c) = false) : matchLit (d :: lt) (c :: rest) = none := by
  simp [matchLit, List.isPrefixOf, h]

theorem firstMatch_var_kw (rest : Chars) :
    firstMatch ('v' :: 'a' :: 'r' :: rest) = some (['v', 'a', 'r'], some .VAR) := by
  have hws : matchWs ('v' :: 'a' :: 'r' :: rest) = none := by
    simp [matchWs, List.takeWhile_cons, (by decide : isPySpace 'v' = false)]
  have hlit : matchLit ['v', 'a', 'r'] ('v' :: 'a' :: 'r' :: rest) = some ['v', 'a', 'r'] := by
    simp [matchLit, List.isPrefixOf]
  simp [firstMatch, TOKENS, List.findSome?_cons, hws, hlit]

theorem firstMatch_true_kw (rest : Chars) :
    firstMatch ('t' :: 'r' :: 'u' :: 'e' :: rest) =
      some (['t', 'r', 'u', 'e'], some .BOOLEAN) := by
  have hws : matchWs ('t' :: 'r' :: 'u' :: 'e' :: rest) = none := by
    simp [matchWs, List.takeWhile_cons, (by decide : isPySpace 't' = false)]
  have hbool : matchBool ('t' :: 'r' :: 'u' :: 'e' :: rest) = some ['t', 'r', 'u', 'e'] := by
    simp [matchBool, matchLit, List.isPrefixOf]
  simp [firstMatch, TOKENS, List.findSome?_cons, hws, hbool,
    matchLit_head_ne 'v' _ 't' _ (by decide), matchLit_head_ne '^' _ 't' _ (by decide),
    matchLit_head_ne '*' _ 't' _ (by decide), matchLit_head_ne '@' _ 't' _ (by decide),
    matchLit_head_ne '\x7d' _ 't' _ (by decide), matchLit_head_ne '/' _ 't' _ (by decide),
    matchLit_head_ne '(' _ 't' _ (by decide), matchLit_head_ne ')' _ 't' _ (by decide),
    matchLit_head_ne ',' _ 't' _ (by decide), matchLit_head_ne '=' _ 't' _ (by decide)]

theorem firstMatch_false_kw (rest : Chars) :
    firstMatch ('f' :: 'a' :: 'l' :: 's' :: 'e' :: rest) =
      some (['f', 'a', 'l', 's', 'e'], some .BOOLEAN) := by
  have hws : matchWs ('f' :: 'a' :: 'l' :: 's' :: 'e' :: rest) = none := by
    simp [matchWs, List.takeWhile_cons, (by decide : isPySpace 'f' = false)]
  have hbool : matchBool ('f' :: 'a' :: 'l' :: 's' :: 'e' :: rest) =
      some ['f', 'a', 'l', 's', 'e'] := by
    simp [matchBool, matchLit, List.isPrefixOf]
  simp [firstMatch, TOKENS, List.findSome?_cons, hws, hbool,
    matchLit_head_ne 'v' _ 'f' _ (by decide), matchLit_head_ne '^' _ 'f' _ (by decide),
    matchLit_head_ne '*' _ 'f' _ (by decide), matchLit_head_ne '@' _ 'f' _ (by decide),
    matchLit_head_ne '\x7d' _ 'f' _ (by decide), matchLit_head_ne '/' _ 'f' _ (by decide),
    matchLit_head_ne '(' _ 'f' _ (by decide), matchLit_head_ne ')' _ 'f' _ (by decide),
    matchLit_head_ne ',' _ 'f' _ (by decide), matchLit_head_ne '=' _ 'f' _ (by decide)]

theorem tokenize_var_kw (pos : Nat) (rest : Chars) :
    tokenize pos ('v' :: 'a' :: 'r' :: rest) =
      (tokenize (pos + 3) rest).map (⟨.VAR, "var", pos⟩ :: ·) := by
  rw [tokenize_step pos 'v' ('a' :: 'r' :: rest) ['v', 'a', 'r'] (some .VAR)
    (firstMatch_var_kw rest)]
  rfl

theorem tokenize_true_kw (pos : Nat) (rest : Chars) :
    tokenize pos ('t' :: 'r' :: 'u' :: 'e' :: rest) =
      (tokenize (pos + 4) rest).map (⟨.BOOLEAN, "true", pos⟩ :: ·) := by
  rw [tokenize_step pos 't' ('r' :: 'u' :: 'e' :: rest) ['t', 'r', 'u', 'e'] (some .BOOLEAN)
    (firstMatch_true_kw rest)]
  rfl

theorem tokenize_false_kw (pos : Nat) (rest : Chars) :
    tokenize pos ('f' :: 'a' :: 'l' :: 's' :: 'e' :: rest) =
      (tokenize (pos + 5) rest).map (⟨.BOOLEAN, "false", pos⟩ :: ·) := by
  rw [tokenize_step pos 'f' ('a' :: 'l' :: 's' :: 'e' :: rest) ['f', 'a', 'l', 's', 'e']
    (some .BOOLEAN) (firstMatch_false_kw rest)]
  rfl

/-- C10 amended: a word starting with the keyword var (or the literal
true / false) always lexes to a VAR (or BOOLEAN) token covering exactly the
keyword characters, and never to a single IDENTIFIER token spanning the
whole word, so such words cannot serve as variable names; the remaining
characters are lexed independently — as one IDENTIFIER for a word like
variable or trueish, but not in general: the remainder of var1 is a NUMBER
token (the counterexample), and the claim's other example truthy does not
even begin with the literal true (its first four characters are trut), so it
lexes as one ordinary IDENTIFIER token. -/
theorem c10_amended :
    (∀ (pos : Nat) (rest : Chars),
      tokenize pos ('v' :: 'a' :: 'r' :: rest) =
        (tokenize (pos + 3) rest).map (⟨.VAR, "var", pos⟩ :: ·)) ∧
    (∀ (pos : Nat) (rest : Chars),
      tokenize pos ('t' :: 'r' :: 'u' :: 'e' :: rest) =
        (tokenize (pos + 4) rest).map (⟨.BOOLEAN, "true", pos⟩ :: ·)) ∧
    (∀ (pos : Nat) (rest : Chars),
      tokenize pos ('f' :: 'a' :: 'l' :: 's' :: 'e' :: rest) =
        (tokenize (pos + 5) rest).map (⟨.BOOLEAN, "false", pos⟩ :: ·)) ∧
    (∀ (rest : Chars) (lex : String) (off : Nat),
      tokenize 0 ('v' :: 'a' :: 'r' :: rest) ≠ .ok [⟨.IDENTIFIER, lex, off⟩]) ∧
    tokenize 0 ("variable").data =
      .ok [⟨.VAR, "var", 0⟩, ⟨.IDENTIFIER, "iable", 3⟩] ∧
    tokenize 0 ("trueish").data =
      .ok [⟨.BOOLEAN, "true", 0⟩, ⟨.IDENTIFIER, "ish", 4⟩] ∧
    tokenize 0 ("truthy").data = .ok [⟨.IDENTIFIER, "truthy", 0⟩] := by
  refine ⟨tokenize_var_kw, tokenize_true_kw, tokenize_false_kw, ?_, ?_, ?_, ?_⟩
  · intro rest lex off h
    rw [tokenize_var_kw] at h
    rcases hx : tokenize (0 + 3) rest with e | toks <;> rw [hx] at h <;> simp [Except.map] at h
  · rw [tokenize_eq_tokenizeF 8 0 _ (by decide)]; rfl
  · rw [tokenize_eq_tokenizeF 7 0 _ (by decide)]; rfl
  · rw [tokenize_eq_tokenizeF 6 0 _ (by decide)]; rfl

/-- C10 amended witness: the word var1 never lexes to a single IDENTIFIER
token spanning the whole word. -/
theorem c10_amended_witness :
    tokenize 0 ('v' :: 'a' :: 'r' :: ['1']) ≠ .ok [⟨.IDENTIFIER, "var1", 0⟩] :=
  c10_amended.2.2.2.1 ['1'] "var1" 0

/-! ### Claim C4

The claim quantifies over all integers a and b written as literals in the
source, so we need a digit rendering of naturals (negative integers cannot
even be written: the grammar has no unary minus), lemmas that the lexer
turns a rendered numeral into one NUMBER token, and that `int()` on that
lexeme recovers the number. -/

def digitChar (n : Nat) : Char := Char.ofNat (48 + n)

/-- Decimal rendering of a natural number, most significant digit first. -/
def natDigits (n : Nat) : Chars :=
  if h : n < 10 then [digitChar n]
  else natDigits (n / 10) ++ [digitChar (n % 10)]
termination_by n
decreasing_by
  exact Nat.div_lt_self (by omega) (by omega)

theorem natDigits_lt (n : Nat) (h : n < 10) : natDigits n = [digitChar n] := by
  rw [natDigits, dif_pos h]

theorem natDigits_ge (n : Nat) (h : ¬ n < 10) :
    natDigits n = natDigits (n / 10) ++ [digitChar (n % 10)] := by
  rw [natDigits, dif_neg h]

theorem digitChar_is_digit (k : Nat) (hk : k < 10) : isDigitChar (digitChar k) = true := by
  interval_cases k <;> decide

theorem digitChar_toNat (k : Nat) (hk : k < 10) : (digitChar k).toNat = 48 + k := by
  interval_cases k <;> decide

theorem natDigits_ne_nil (n : Nat) : natDigits n ≠ [] := by
  by_cases h : n < 10
  · rw [natDigits_lt n h]; simp
  · rw [natDigits_ge n h]; simp

theorem natDigits_all_digits : ∀ n : Nat, ∀ c ∈ natDigits n, isDigitChar c = true := by
  intro n
  induction n using Nat.strong_induction_on with
  | _ n ih =>
    by_cases h : n < 10
    · rw [natDigits_lt n h]
      intro c hc
      simp at hc
      subst hc
      exact digitChar_is_digit n h
    · rw [natDigits_ge n h]
      intro c hc
      rw [List.mem_append] at hc
      rcases hc with hc | hc
      · exact ih (n / 10) (Nat.div_lt_self (by omega) (by omega)) c hc
      · simp at hc
        subst hc
        exact digitChar_is_digit _ (Nat.mod_lt _ (by omega))

theorem strToNatAux_append (acc : Nat) (s t : Chars) :
    strToNatAux acc (s ++ t) = strToNatAux (strToNatAux acc s) t := by
  induction s generalizing acc with
  | nil => rfl
  | cons c cs ih => exact ih (acc * 10 + (c.toNat - 48))

theorem strToNatAux_natDigits : ∀ n acc : Nat,
    strToNatAux acc (natDigits n) = acc * 10 ^ (natDigits n).length + n := by
  intro n
  induction n using Nat.strong_induction_on with
  | _ n ih =>
    intro acc
    by_cases h : n < 10
    · rw [natDigits_lt n h]
      have hstep : strToNatAux acc [digitChar n] =
          acc * 10 + ((digitChar n).toNat - 48) := rfl
      have hlen : ([digitChar n] : Chars).length = 1 := rfl
      rw [hstep, digitChar_toNat n h, hlen, pow_one]
      omega
    · rw [natDigits_ge n h, strToNatAux_append,
        ih (n / 10) (Nat.div_lt_self (by omega) (by omega)) acc]
      have hstep : strToNatAux (acc * 10 ^ (natDigits (n / 10)).length + n / 10)
          [digitChar (n % 10)] =
          (acc * 10 ^ (natDigits (n / 10)).length + n / 10) * 10 +
            ((digitChar (n % 10)).toNat - 48) := rfl
      have hlen : ([digitChar (n % 10)] : Chars).length = 1 := rfl
      rw [hstep, digitChar_toNat (n % 10) (Nat.mod_lt _ (by omega)),
        List.length_append, hlen, pow_succ]
      have hm := Nat.div_add_mod n 10
      generalize 10 ^ (natDigits (n / 10)).length = X
      have hx : (acc * X + n / 10) * 10 = acc * (X * 10) + n / 10 * 10 := by ring
      omega

theorem pyInt_natDigits (n : Nat) : pyInt ⟨natDigits n⟩ = Int.ofNat n := by
  unfold pyInt
  have hd : (String.mk (natDigits n)).data = natDigits n := rfl
  rw [hd, strToNatAux_natDigits n 0]
  simp

theorem isPySpace_false_of_digit (c : Char) (hc : isDigitChar c = true) :
    isPySpace c = false := by
  simp only [isDigitChar, decide_eq_true_eq] at hc
  simp only [isPySpace, decide_eq_false_iff_not]
  omega

theorem isIdentStart_false_of_digit (c : Char) (hc : isDigitChar c = true) :
    isIdentStart c = false := by
  simp only [isDigitChar, decide_eq_true_eq] at hc
  simp only [isIdentStart, decide_eq_false_iff_not]
  omega

theorem beq_false_of_digit (d : Char) (hd : isDigitChar d = false) (c : Char)
    (hc : isDigitChar c = true) : (d == c) = false := by
  cases hb : d == c
  · rfl
  · have hdc : d = c := eq_of_beq hb
    rw [hdc, hc] at hd
    cases hd

theorem matchStr_cons_none (c : Char) (rest : Chars) (hq : ¬ c = '"') :
    matchStr (c :: rest) = none := by
  unfold matchStr
  split
  · next heq => exact absurd (List.head_eq_of_cons_eq heq) hq
  · rfl

/-- At a digit the first matching rule is the NUMBER rule, matching the
maximal digit run. -/
theorem firstMatch_digit_head (c : Char) (rest : Chars) (hc : isDigitChar c = true) :
    firstMatch (c :: rest) = some (c :: rest.takeWhile isDigitChar, some .NUMBER) := by
  have hws : matchWs (c :: rest) = none := by
    simp [matchWs, List.takeWhile_cons, isPySpace_false_of_digit c hc]
  have hnum : matchNumber (c :: rest) = some (c :: rest.takeWhile isDigitChar) := by
    simp [matchNumber, List.takeWhile_cons, hc]
  have hbool : matchBool (c :: rest) = none := by
    simp [matchBool, matchLit_head_ne 't' ['r', 'u', 'e'] c rest
        (beq_false_of_digit 't' (by decide) c hc),
      matchLit_head_ne 'f' ['a', 'l', 's', 'e'] c rest
        (beq_false_of_digit 'f' (by decide) c hc)]
  simp [firstMatch, TOKENS, List.findSome?_cons, hws, hnum, hbool,
    matchLit_head_ne 'v' ['a', 'r'] c rest (beq_false_of_digit 'v' (by decide) c hc),
    matchLit_head_ne '^' [] c rest (beq_false_of_digit '^' (by decide) c hc),
    matchLit_head_ne '*' [] c rest (beq_false_of_digit '*' (by decide) c hc),
    matchLit_head_ne '@' ['\x7b'] c rest (beq_false_of_digit '@' (by decide) c hc),
    matchLit_head_ne '\x7d' [] c rest (beq_false_of_digit '\x7d' (by decide) c hc),
    matchLit_head_ne '/' [] c rest (beq_false_of_digit '/' (by decide) c hc),
    matchLit_head_ne '(' [] c rest (beq_false_of_digit '(' (by decide) c hc),
    matchLit_head_ne ')' [] c rest (beq_false_of_digit ')' (by decide) c hc),
    matchLit_head_ne ',' [] c rest (beq_false_of_digit ',' (by decide) c hc),
    matchLit_head_ne '=' [] c rest (beq_false_of_digit '=' (by decide) c hc)]

theorem takeWhile_app_of_all {p : Char → Bool} :
    ∀ (l₁ l₂ : Chars), (∀ c ∈ l₁, p c = true) →
      (l₁ ++ l₂).takeWhile p = l₁ ++ l₂.takeWhile p := by
  intro l₁
  induction l₁ with
  | nil => intro l₂ _; rfl
  | cons c cs ih =>
    intro l₂ hall
    rw [List.cons_append, List.takeWhile_cons, hall c (List.mem_cons_self c cs), if_pos rfl,
      ih l₂ (fun d hd => hall d (List.mem_cons_of_mem c hd)), List.cons_append]

/-- Lexing a rendered numeral followed by non-digit text produces one NUMBER
token whose lexeme is the whole numeral. -/
theorem tokenize_digits (pos : Nat) (a : Nat) (rest : Chars)
    (hrest : rest.takeWhile isDigitChar = []) :
    tokenize pos (natDigits a ++ rest) =
      (tokenize (pos + (natDigits a).length) rest).map (⟨.NUMBER, ⟨natDigits a⟩, pos⟩ :: ·) := by
  rcases hnd : natDigits a with _ | ⟨c, cs⟩
  · exact absurd hnd (natDigits_ne_nil a)
  · have hc : isDigitChar c = true :=
      natDigits_all_digits a c (by rw [hnd]; exact List.mem_cons_self c cs)
    have hcs : ∀ d ∈ cs, isDigitChar d = true := fun d hd =>
      natDigits_all_digits a d (by rw [hnd]; exact List.mem_cons_of_mem c hd)
    have htw : (cs ++ rest).takeWhile isDigitChar = cs := by
      rw [takeWhile_app_of_all cs rest hcs, hrest, List.append_nil]
    have hfm : firstMatch (c :: (cs ++ rest)) = some (c :: cs, some .NUMBER) := by
      rw [firstMatch_digit_head c (cs ++ rest) hc, htw]
    rw [List.cons_append, tokenize_step pos c (cs ++ rest) (c :: cs) (some .NUMBER) hfm]
    have hdrop : (c :: (cs ++ rest)).drop (c :: cs).length = rest := by
      rw [← List.cons_append, List.drop_left]
    rw [hdrop]

/-- Lexing a rendered numeral at the end of input. -/
theorem tokenize_digits_only (pos : Nat) (b : Nat) :
    tokenize pos (natDigits b) = .ok [⟨.NUMBER, ⟨natDigits b⟩, pos⟩] := by
  have h := tokenize_digits pos b [] rfl
  rw [List.append_nil] at h
  rw [h, tokenize_nil]
  rfl

/-- A single-space whitespace match: the next character is not whitespace. -/
theorem firstMatch_ws_one (c2 : Char) (rest : Chars) (h2 : isPySpace c2 = false) :
    firstMatch (' ' :: c2 :: rest) = some ([' '], none) := by
  have hws : matchWs (' ' :: c2 :: rest) = some [' '] := by
    simp [matchWs, List.takeWhile_cons, h2, (by decide : isPySpace ' ' = true)]
  simp [firstMatch, TOKENS, List.findSome?_cons, hws]

theorem tokenize_ws_one (pos : Nat) (c2 : Char) (rest : Chars) (h2 : isPySpace c2 = false) :
    tokenize pos (' ' :: c2 :: rest) = tokenize (pos + 1) (c2 :: rest) := by
  rw [tokenize_step pos ' ' (c2 :: rest) [' '] none (firstMatch_ws_one c2 rest h2)]
  rfl

theorem tokenize_ws_digits (pos : Nat) (x : Nat) (rest : Chars) :
    tokenize pos (' ' :: (natDigits x ++ rest)) = tokenize (pos + 1) (natDigits x ++ rest) := by
  rcases hnd : natDigits x with _ | ⟨c, cs⟩
  · exact absurd hnd (natDigits_ne_nil x)
  · have hc : isDigitChar c = true :=
      natDigits_all_digits x c (by rw [hnd]; exact List.mem_cons_self c cs)
    rw [List.cons_append]
    exact tokenize_ws_one pos c (cs ++ rest) (isPySpace_false_of_digit c hc)

theorem tokenize_ws_digits_end (pos : Nat) (x : Nat) :
    tokenize pos (' ' :: natDigits x) = tokenize (pos + 1) (natDigits x) := by
  have h := tokenize_ws_digits pos x []
  rwa [List.append_nil] at h

theorem firstMatch_eq_head (rest : Chars) :
    firstMatch ('=' :: rest) = some (['='], some .EQUALS) := by
  have hws : matchWs ('=' :: rest) = none := by
    simp [matchWs, List.takeWhile_cons, (by decide : isPySpace '=' = false)]
  have hlit : matchLit ['='] ('=' :: rest) = some ['='] := by
    simp [matchLit, List.isPrefixOf]
  simp [firstMatch, TOKENS, List.findSome?_cons, hws, hlit,
    matchLit_head_ne 'v' ['a', 'r'] '=' rest (by decide),
    matchLit_head_ne '^' [] '=' rest (by decide),
    matchLit_head_ne '*' [] '=' rest (by decide),
    matchLit_head_ne '@' ['\x7b'] '=' rest (by decide),
    matchLit_head_ne '\x7d' [] '=' rest (by decide),
    matchLit_head_ne '/' [] '=' rest (by decide),
    matchLit_head_ne '(' [] '=' rest (by decide),
    matchLit_head_ne ')' [] '=' rest (by decide),
    matchLit_head_ne ',' [] '=' rest (by decide)]

theorem firstMatch_eval_head (rest : Chars) :
    firstMatch ('^' :: rest) = some (['^'], some .EVAL) := by
  have hws : matchWs ('^' :: rest) = none := by
    simp [matchWs, List.takeWhile_cons, (by decide : isPySpace '^' = false)]
  have hlit : matchLit ['^'] ('^' :: rest) = some ['^'] := by
    simp [matchLit, List.isPrefixOf]
  simp [firstMatch, TOKENS, List.findSome?_cons, hws, hlit,
    matchLit_head_ne 'v' ['a', 'r'] '^' rest (by decide)]

theorem firstMatch_div_head (rest : Chars) :
    firstMatch ('/' :: rest) = some (['/'], some .DIVIDE) := by
  have hws : matchWs ('/' :: rest) = none := by
    simp [matchWs, List.takeWhile_cons, (by decide : isPySpace '/' = false)]
  have hlit : matchLit ['/'] ('/' :: rest) = some ['/'] := by
    simp [matchLit, List.isPrefixOf]
  simp [firstMatch, TOKENS, List.findSome?_cons, hws, hlit,
    matchLit_head_ne 'v' ['a', 'r'] '/' rest (by decide),
    matchLit_head_ne '^' [] '/' rest (by decide),
    matchLit_head_ne '*' [] '/' rest (by decide),
    matchLit_head_ne '@' ['\x7b'] '/' rest (by decide),
    matchLit_head_ne '\x7d' [] '/' rest (by decide)]

theorem firstMatch_letter_x (c2 : Char) (rest : Chars) (h2 : isIdentChar c2 = false) :
    firstMatch ('x' :: c2 :: rest) = some (['x'], some .IDENTIFIER) := by
  have hws : matchWs ('x' :: c2 :: rest) = none := by
    simp [matchWs, List.takeWhile_cons, (by decide : isPySpace 'x' = false)]
  have hnum : matchNumber ('x' :: c2 :: rest) = none := by
    simp [matchNumber, List.takeWhile_cons, (by decide : isDigitChar 'x' = false)]
  have hstr : matchStr ('x' :: c2 :: rest) = none := matchStr_cons_none _ _ (by decide)
  have hbool : matchBool ('x' :: c2 :: rest) = none := by
    simp [matchBool,
      matchLit_head_ne 't' ['r', 'u', 'e'] 'x' (c2 :: rest) (by decide),
      matchLit_head_ne 'f' ['a', 'l', 's', 'e'] 'x' (c2 :: rest) (by decide)]
  have hident : matchIdent ('x' :: c2 :: rest) = some ['x'] := by
    simp [matchIdent, (by decide : isIdentStart 'x' = true), List.takeWhile_cons, h2]
  simp [firstMatch, TOKENS, List.findSome?_cons, hws, hnum, hstr, hbool, hident,
    matchLit_head_ne 'v' ['a', 'r'] 'x' (c2 :: rest) (by decide),
    matchLit_head_ne '^' [] 'x' (c2 :: rest) (by decide),
    matchLit_head_ne '*' [] 'x' (c2 :: rest) (by decide),
    matchLit_head_ne '@' ['\x7b'] 'x' (c2 :: rest) (by decide),
    matchLit_head_ne '\x7d' [] 'x' (c2 :: rest) (by decide),
    matchLit_head_ne '/' [] 'x' (c2 :: rest) (by decide),
    matchLit_head_ne '(' [] 'x' (c2 :: rest) (by decide),
    matchLit_head_ne ')' [] 'x' (c2 :: rest) (by decide),
    matchLit_head_ne ',' [] 'x' (c2 :: rest) (by decide),
    matchLit_head_ne '=' [] 'x' (c2 :: rest) (by decide)]

theorem firstMatch_letter_y (c2 : Char) (rest : Chars) (h2 : isIdentChar c2 = false) :
    firstMatch ('y' :: c2 :: rest) = some (['y'], some .IDENTIFIER) := by
  have hws : matchWs ('y' :: c2 :: rest) = none := by
    simp [matchWs, List.takeWhile_cons, (by decide : isPySpace 'y' = false)]
  have hnum : matchNumber ('y' :: c2 :: rest) = none := by
    simp [matchNumber, List.takeWhile_cons, (by decide : isDigitChar 'y' = false)]
  have hstr : matchStr ('y' :: c2 :: rest) = none := matchStr_cons_none _ _ (by decide)
  have hbool : matchBool ('y' :: c2 :: rest) = none := by
    simp [matchBool,
      matchLit_head_ne 't' ['r', 'u', 'e'] 'y' (c2 :: rest) (by decide),
      matchLit_head_ne 'f' ['a', 'l', 's', 'e'] 'y' (c2 :: rest) (by decide)]
  have hident : matchIdent ('y' :: c2 :: rest) = some ['y'] := by
    simp [matchIdent, (by decide : isIdentStart 'y' = true), List.takeWhile_cons, h2]
  simp [firstMatch, TOKENS, List.findSome?_cons, hws, hnum, hstr, hbool, hident,
    matchLit_head_ne 'v' ['a', 'r'] 'y' (c2 :: rest) (by decide),
    matchLit_head_ne '^' [] 'y' (c2 :: rest) (by decide),
    matchLit_head_ne '*' [] 'y' (c2 :: rest) (by decide),
    matchLit_head_ne '@' ['\x7b'] 'y' (c2 :: rest) (by decide),
    matchLit_head_ne '\x7d' [] 'y' (c2 :: rest) (by decide),
    matchLit_head_ne '/' [] 'y' (c2 :: rest) (by decide),
    matchLit_head_ne '(' [] 'y' (c2 :: rest) (by decide),
    matchLit_head_ne ')' [] 'y' (c2 :: rest) (by decide),
    matchLit_head_ne ',' [] 'y' (c2 :: rest) (by decide),
    matchLit_head_ne '=' [] 'y' (c2 :: rest) (by decide)]

theorem tokenize_eq_head (pos : Nat) (rest : Chars) :
    tokenize pos ('=' :: rest) = (tokenize (pos + 1) rest).map (⟨.EQUALS, "=", pos⟩ :: ·) := by
  rw [tokenize_step pos '=' rest ['='] (some .EQUALS) (firstMatch_eq_head rest)]
  rfl

theorem tokenize_eval_head (pos : Nat) (rest : Chars) :
    tokenize pos ('^' :: rest) = (tokenize (pos + 1) rest).map (⟨.EVAL, "^", pos⟩ :: ·) := by
  rw [tokenize_step pos '^' rest ['^'] (some .EVAL) (firstMatch_eval_head rest)]
  rfl

theorem tokenize_div_head (pos : Nat) (rest : Chars) :
    tokenize pos ('/' :: rest) = (tokenize (pos + 1) rest).map (⟨.DIVIDE, "/", pos⟩ :: ·) := by
  rw [tokenize_step pos '/' rest ['/'] (some .DIVIDE) (firstMatch_div_head rest)]
  rfl

theorem tokenize_letter_x (pos : Nat) (c2 : Char) (rest : Chars) (h2 : isIdentChar c2 = false) :
    tokenize pos ('x' :: c2 :: rest) =
      (tokenize (pos + 1) (c2 :: rest)).map (⟨.IDENTIFIER, "x", pos⟩ :: ·) := by
  rw [tokenize_step pos 'x' (c2 :: rest) ['x'] (some .IDENTIFIER)
    (firstMatch_letter_x c2 rest h2)]
  rfl

theorem tokenize_letter_y (pos : Nat) (c2 : Char) (rest : Chars) (h2 : isIdentChar c2 = false) :
    tokenize pos ('y' :: c2 :: rest) =
      (tokenize (pos + 1) (c2 :: rest)).map (⟨.IDENTIFIER, "y", pos⟩ :: ·) := by
  rw [tokenize_step pos 'y' (c2 :: rest) ['y'] (some .IDENTIFIER)
    (firstMatch_letter_y c2 rest h2)]
  rfl

/-- The character list of the two-statement C4 source
`var x = <digits of a> var y = ^x / <digits of b>`. -/
def c4chars (a b : Nat) : Chars :=
  'v' :: 'a' :: 'r' :: ' ' :: 'x' :: ' ' :: '=' :: ' ' ::
    (natDigits a ++ (' ' :: 'v' :: 'a' :: 'r' :: ' ' :: 'y' :: ' ' :: '=' :: ' ' ::
      '^' :: 'x' :: ' ' :: '/' :: ' ' :: natDigits b))

/-- The C4 source text with the numerals of a and b spliced in. -/
def c4src (a b : Nat) : String := ⟨c4chars a b⟩

/-- Lexing the C4 source yields exactly the eleven expected tokens (at some
offsets); the two numerals each become one NUMBER token. -/
theorem c4_lex (a b : Nat) :
    ∃ o₁ o₂ o₃ o₄ o₅ o₆ o₇ o₈ o₉ o₁₀ o₁₁ : Nat,
      tokenize 0 (c4src a b).data = .ok
        [⟨.VAR, "var", o₁⟩, ⟨.IDENTIFIER, "x", o₂⟩, ⟨.EQUALS, "=", o₃⟩,
         ⟨.NUMBER, ⟨natDigits a⟩, o₄⟩, ⟨.VAR, "var", o₅⟩, ⟨.IDENTIFIER, "y", o₆⟩,
         ⟨.EQUALS, "=", o₇⟩, ⟨.EVAL, "^", o₈⟩, ⟨.IDENTIFIER, "x", o₉⟩,
         ⟨.DIVIDE, "/", o₁₀⟩, ⟨.NUMBER, ⟨natDigits b⟩, o₁₁⟩] := by
  refine ⟨0, 0 + 3 + 1, 0 + 3 + 1 + 1 + 1, 0 + 3 + 1 + 1 + 1 + 1 + 1,
    0 + 3 + 1 + 1 + 1 + 1 + 1 + (natDigits a).length + 1,
    0 + 3 + 1 + 1 + 1 + 1 + 1 + (natDigits a).length + 1 + 3 + 1,
    0 + 3 + 1 + 1 + 1 + 1 + 1 + (natDigits a).length + 1 + 3 + 1 + 1 + 1,
    0 + 3 + 1 + 1 + 1 + 1 + 1 + (natDigits a).length + 1 + 3 + 1 + 1 + 1 + 1 + 1,
    0 + 3 + 1 + 1 + 1 + 1 + 1 + (natDigits a).length + 1 + 3 + 1 + 1 + 1 + 1 + 1 + 1,
    0 + 3 + 1 + 1 + 1 + 1 + 1 + (natDigits a).length + 1 + 3 + 1 + 1 + 1 + 1 + 1 + 1 + 1 + 1,
    0 + 3 + 1 + 1 + 1 + 1 + 1 + (natDigits a).length + 1 + 3 + 1 + 1 + 1 + 1 + 1 + 1 + 1 + 1 + 1 + 1, ?_⟩
  have hd : (c4src a b).data = c4chars a b := rfl
  rw [hd]
  unfold c4chars
  rw [tokenize_var_kw]
  rw [tokenize_ws_one _ 'x' _ (by decide)]
  rw [tokenize_letter_x _ ' ' _ (by decide)]
  rw [tokenize_ws_one _ '=' _ (by decide)]
  rw [tokenize_eq_head]
  rw [tokenize_ws_digits]
  rw [tokenize_digits _ a _ (by
    simp [List.takeWhile_cons, (by decide : isDigitChar ' ' = false)])]
  rw [tokenize_ws_one _ 'v' _ (by decide)]
  rw [tokenize_var_kw]
  rw [tokenize_ws_one _ 'y' _ (by decide)]
  rw [tokenize_letter_y _ ' ' _ (by decide)]
  rw [tokenize_ws_one _ '=' _ (by decide)]
  rw [tokenize_eq_head]
  rw [tokenize_ws_one _ '^' _ (by decide)]
  rw [tokenize_eval_head]
  rw [tokenize_letter_x _ ' ' _ (by decide)]
  rw [tokenize_ws_one _ '/' _ (by decide)]
  rw [tokenize_div_head]
  rw [tokenize_ws_digits_end]
  rw [tokenize_digits_only]
  simp only [Except.map]

/-- Parsing the eleven C4 tokens when the divisor literal is nonzero:
x is bound to int(dA), the evaluation divides and produces the float
quotient, and the result is the two-mapping sequence. -/
theorem c4_parse_nz (dA dB : String) (hb : (pyInt dB == 0) = false)
    (o₁ o₂ o₃ o₄ o₅ o₆ o₇ o₈ o₉ o₁₀ o₁₁ : Nat) :
    parse 30 ⟨[⟨.VAR, "var", o₁⟩, ⟨.IDENTIFIER, "x", o₂⟩, ⟨.EQUALS, "=", o₃⟩,
       ⟨.NUMBER, dA, o₄⟩, ⟨.VAR, "var", o₅⟩, ⟨.IDENTIFIER, "y", o₆⟩,
       ⟨.EQUALS, "=", o₇⟩, ⟨.EVAL, "^", o₈⟩, ⟨.IDENTIFIER, "x", o₉⟩,
       ⟨.DIVIDE, "/", o₁₀⟩, ⟨.NUMBER, dB, o₁₁⟩], [], []⟩ =
      .ok (.multi [.dict [("x", .int (pyInt dA))],
                   .dict [("y", .float ((pyInt dA : ℚ) / (pyInt dB : ℚ)))]],
           ⟨[], [("x", .int (pyInt dA)), ("y", .float ((pyInt dA : ℚ) / (pyInt dB : ℚ)))], []⟩) := by
  simp [parse, parseLoop, statement, parse_var, parse_value, parse_eval, expect, dinsert,
    dlookup, applyOp, eqZero, pyDiv, asNum, numQ, hb]

/-- Parsing the eleven C4 tokens when the divisor literal is zero: the zero
test fires before any division and the parse aborts with the
division-by-zero error. -/
theorem c4_parse_z (dA dB : String) (hb : (pyInt dB == 0) = true)
    (o₁ o₂ o₃ o₄ o₅ o₆ o₇ o₈ o₉ o₁₀ o₁₁ : Nat) :
    parse 30 ⟨[⟨.VAR, "var", o₁⟩, ⟨.IDENTIFIER, "x", o₂⟩, ⟨.EQUALS, "=", o₃⟩,
       ⟨.NUMBER, dA, o₄⟩, ⟨.VAR, "var", o₅⟩, ⟨.IDENTIFIER, "y", o₆⟩,
       ⟨.EQUALS, "=", o₇⟩, ⟨.EVAL, "^", o₈⟩, ⟨.IDENTIFIER, "x", o₉⟩,
       ⟨.DIVIDE, "/", o₁₀⟩, ⟨.NUMBER, dB, o₁₁⟩], [], []⟩ =
      .error .zeroDiv := by
  simp [parse, parseLoop, statement, parse_var, parse_value, parse_eval, expect, dinsert,
    dlookup, applyOp, eqZero, hb]

/-- The parse result of the repaired two-statement C4 source: the sequence
of the mapping binding x to the int a and the mapping binding y to the float
quotient a / b (a Python float, modelled as the exact rational). -/
def c4result (a b : Nat) : Except Err (TopResult × PState) :=
  .ok (.multi [.dict [("x", .int (Int.ofNat a))],
               .dict [("y", .float ((a : ℚ) / (b : ℚ)))]],
       ⟨[], [("x", .int (Int.ofNat a)), ("y", .float ((a : ℚ) / (b : ℚ)))], []⟩)

/-- C4 counterexample: the claim's source text contains a top-level
semicolon, which the statement dispatch rejects before any evaluation
happens, so `var x = 1; ^x / 2` is a syntax error (and a top-level `^` would
be one too), not a division. -/
theorem c4_counterexample :
    run ("var x = 1; ^x / 2") = .error (.synUnexpectedToken ⟨.SEMICOLON, ";", 9⟩) := by
  rw [run_eq_runF]; rfl

/-- C4 amended: with the evaluation moved into value position and the
semicolon dropped — `var x = a var y = ^x / b` with the decimal numerals of
the naturals a and b spliced in (negative literals are not expressible in
the grammar) — the division evaluates, for b nonzero, to the host quotient
of a and b (Python true division: a float, modelled as the exact rational);
for b = 0 the parse fails with the division-by-zero error, the zero test
being applied to the right operand before any division is performed. -/
theorem c4_amended (a b : Nat) :
    (b ≠ 0 → run (c4src a b) = c4result a b) ∧
    run (c4src a 0) = .error .zeroDiv := by
  constructor
  · intro hb
    obtain ⟨o₁, o₂, o₃, o₄, o₅, o₆, o₇, o₈, o₉, o₁₀, o₁₁, hlex⟩ := c4_lex a b
    have hz : (pyInt ⟨natDigits b⟩ == 0) = false := by
      rw [pyInt_natDigits]
      have hne : Int.ofNat b ≠ 0 := by
        rw [Int.ofNat_eq_natCast]
        exact_mod_cast hb
      exact beq_eq_false_iff_ne.mpr hne
    have hp := c4_parse_nz ⟨natDigits a⟩ ⟨natDigits b⟩ hz o₁ o₂ o₃ o₄ o₅ o₆ o₇ o₈ o₉ o₁₀ o₁₁
    simp only [run, hlex, List.length_cons, List.length_nil]
    norm_num
    rw [hp]
    simp [c4result, pyInt_natDigits, Int.ofNat_eq_natCast]
  · obtain ⟨o₁, o₂, o₃, o₄, o₅, o₆, o₇, o₈, o₉, o₁₀, o₁₁, hlex⟩ := c4_lex a 0
    have hz : (pyInt ⟨natDigits 0⟩ == 0) = true := by
      rw [pyInt_natDigits]
      simp
    have hp := c4_parse_z ⟨natDigits a⟩ ⟨natDigits 0⟩ hz o₁ o₂ o₃ o₄ o₅ o₆ o₇ o₈ o₉ o₁₀ o₁₁
    simp only [run, hlex, List.length_cons, List.length_nil]
    norm_num
    rw [hp]

/-- C4 amended witness at a = 7, b = 2: the division produces the float 7/2
(Python 7 / 2 is 3.5). -/
theorem c4_amended_witness : run (c4src 7 2) = c4result 7 2 :=
  (c4_amended 7 2).1 (by decide)

end ConfigLang
